import Mathlib

/-!
Verification of the opportunity classification pipeline (src/main.py).

The embedding translates the pure core of the service:
  - the fixed taxonomy `OPPORTUNITY_TYPES`,
  - the deterministic keyword fallback classifier `fallback_categorization`,
  - the per-item classifier `analyze_single_opportunity` (the external
    HTTP call and JSON decoding are modelled by an explicit outcome value
    and a parse function, matching the decision points of the source),
  - the batch endpoint `analyze_opportunities` (the dict of results is an
    insertion-ordered association list with Python dict update semantics;
    the chunked loop with its inter-chunk pacing sleep is modelled by an
    explicit event trace `scheduleTrace`).
-/

/-! ## String helpers

Python's `x in s` substring test and `str.lower`, modelled on character
lists so that they compute by kernel reduction. -/

def listStartsWith : List Char → List Char → Bool
  | [], _ => true
  | _ :: _, [] => false
  | a :: as, b :: bs => a == b && listStartsWith as bs

def listContainsSub (needle : List Char) : List Char → Bool
  | [] => listStartsWith needle []
  | c :: t => listStartsWith needle (c :: t) || listContainsSub needle t

def strContains (haystack needle : String) : Bool :=
  listContainsSub needle.data haystack.data

def toLowerStr (s : String) : String := ⟨s.data.map Char.toLower⟩

/-! ## Data model (src/main.py lines 37-70) -/

def OPPORTUNITY_TYPES : List String := [
  "Security Assessment",
  "Cloud Security",
  "Endpoint Security",
  "SIEM/SOC",
  "Identity Management",
  "Network Security",
  "Data Protection",
  "Vulnerability Management",
  "Compliance & Audit",
  "Incident Response",
  "Security Training",
  "Mainframe Security"
]

structure OpportunityForAnalysis where
  id : String
  opportunityName : String
  description : String
  onHoldReason : Option String
deriving DecidableEq, Repr

structure OpportunityAnalysis where
  type : String
  confidence : Int
  reasoning : String
deriving DecidableEq, Repr

structure AnalysisRequest where
  opportunities : List OpportunityForAnalysis
deriving DecidableEq, Repr

structure AnalysisResponse where
  results : List (String × OpportunityAnalysis)
  processed_count : Nat
  timestamp : String
deriving DecidableEq, Repr

structure HTTPError where
  status_code : Nat
  detail : String
deriving DecidableEq, Repr

/-! ## Fallback classifier (src/main.py lines 164-245) -/

def search_text (opportunity : OpportunityForAnalysis) : String :=
  toLowerStr (opportunity.opportunityName ++ " " ++ opportunity.description ++ " "
    ++ opportunity.onHoldReason.getD "")

def fallback_categorization (opportunity : OpportunityForAnalysis) : OpportunityAnalysis :=
  if strContains (search_text opportunity) "assessment"
      || strContains (search_text opportunity) "audit"
      || strContains (search_text opportunity) "evaluation" then
    { type := "Security Assessment", confidence := 70,
      reasoning := "Contains assessment/audit keywords" }
  else if strContains (search_text opportunity) "cloud"
      || strContains (search_text opportunity) "aws"
      || strContains (search_text opportunity) "azure"
      || strContains (search_text opportunity) "gcp" then
    { type := "Cloud Security", confidence := 75,
      reasoning := "Contains cloud platform keywords" }
  else if strContains (search_text opportunity) "endpoint"
      || strContains (search_text opportunity) "antivirus"
      || strContains (search_text opportunity) "malware" then
    { type := "Endpoint Security", confidence := 75,
      reasoning := "Contains endpoint security keywords" }
  else if strContains (search_text opportunity) "siem"
      || strContains (search_text opportunity) "soc"
      || strContains (search_text opportunity) "monitoring" then
    { type := "SIEM/SOC", confidence := 80,
      reasoning := "Contains SIEM/SOC keywords" }
  else if strContains (search_text opportunity) "identity"
      || strContains (search_text opportunity) "access"
      || strContains (search_text opportunity) "mfa"
      || strContains (search_text opportunity) "authentication" then
    { type := "Identity Management", confidence := 75,
      reasoning := "Contains identity management keywords" }
  else if strContains (search_text opportunity) "firewall"
      || strContains (search_text opportunity) "network"
      || strContains (search_text opportunity) "perimeter" then
    { type := "Network Security", confidence := 75,
      reasoning := "Contains network security keywords" }
  else if strContains (search_text opportunity) "data"
      || strContains (search_text opportunity) "encryption"
      || strContains (search_text opportunity) "backup"
      || strContains (search_text opportunity) "protection" then
    { type := "Data Protection", confidence := 75,
      reasoning := "Contains data protection keywords" }
  else if strContains (search_text opportunity) "vulnerability"
      || strContains (search_text opportunity) "scanning"
      || strContains (search_text opportunity) "penetration" then
    { type := "Vulnerability Management", confidence := 75,
      reasoning := "Contains vulnerability management keywords" }
  else if strContains (search_text opportunity) "compliance"
      || strContains (search_text opportunity) "regulatory"
      || strContains (search_text opportunity) "gdpr"
      || strContains (search_text opportunity) "hipaa" then
    { type := "Compliance & Audit", confidence := 75,
      reasoning := "Contains compliance keywords" }
  else if strContains (search_text opportunity) "incident"
      || strContains (search_text opportunity) "response"
      || strContains (search_text opportunity) "forensics" then
    { type := "Incident Response", confidence := 75,
      reasoning := "Contains incident response keywords" }
  else if strContains (search_text opportunity) "training"
      || strContains (search_text opportunity) "awareness"
      || strContains (search_text opportunity) "phishing" then
    { type := "Security Training", confidence := 75,
      reasoning := "Contains security training keywords" }
  else if strContains (search_text opportunity) "mainframe"
      || strContains (search_text opportunity) "legacy"
      || strContains (search_text opportunity) "z/os" then
    { type := "Mainframe Security", confidence := 80,
      reasoning := "Contains mainframe keywords" }
  else
    { type := "Security Assessment", confidence := 40,
      reasoning := "Default fallback categorization" }

/-! ## Item classifier (src/main.py lines 72-162)

The external HTTP call and the JSON decoding done by library code
(`httpx`, `response.json()`, `json.loads`, pydantic field coercion) are
modelled explicitly:

  - `ExtOutcome.exn` : the call itself raised (transport error, timeout);
  - `ExtOutcome.resp status content` : a response arrived with the given
    status code; `content` is `none` when the response body could not be
    decoded as JSON (`response.json()` raised), otherwise
    `some s` where `s` is `data.choices[0].message.content` with the
    source's default of the empty string for missing pieces;
  - the `parse` parameter models `json.loads` on the stripped content
    followed by extraction of the three expected fields, each absent
    field giving `none` (pydantic then rejects the record, which the
    source catches and turns into the fallback). -/

structure AnalysisData where
  type? : Option String
  confidence? : Option Int
  reasoning? : Option String
deriving DecidableEq, Repr

inductive ExtOutcome where
  | exn : ExtOutcome
  | resp (status : Nat) (content : Option String) : ExtOutcome
deriving DecidableEq, Repr

def mkOpportunityAnalysis (d : AnalysisData) : Option OpportunityAnalysis :=
  match d.type?, d.confidence?, d.reasoning? with
  | some t, some c, some r => some { type := t, confidence := c, reasoning := r }
  | _, _, _ => none

def analyze_single_opportunity (parse : String → Option AnalysisData)
    (outcome : ExtOutcome) (opportunity : OpportunityForAnalysis) :
    String × OpportunityAnalysis :=
  match outcome with
  | ExtOutcome.exn => (opportunity.id, fallback_categorization opportunity)
  | ExtOutcome.resp status content =>
    if status != 200 then (opportunity.id, fallback_categorization opportunity)
    else
      match content with
      | none => (opportunity.id, fallback_categorization opportunity)
      | some c =>
        if c == "" then (opportunity.id, fallback_categorization opportunity)
        else
          match parse c.trim with
          | none => (opportunity.id, fallback_categorization opportunity)
          | some d =>
            match d.type? with
            | none => (opportunity.id, fallback_categorization opportunity)
            | some t =>
              if OPPORTUNITY_TYPES.contains t then
                match mkOpportunityAnalysis d with
                | some a => (opportunity.id, a)
                | none => (opportunity.id, fallback_categorization opportunity)
              else (opportunity.id, fallback_categorization opportunity)

/-- The failure conditions of the per-item classification listed by the
source: the call raised, a non-200 status, an undecodable body, empty
content, unparseable content, a missing required field, or a type outside
the taxonomy. -/
def analysisFailure (parse : String → Option AnalysisData) : ExtOutcome → Bool
  | ExtOutcome.exn => true
  | ExtOutcome.resp status content =>
    status != 200 ||
    match content with
    | none => true
    | some c =>
      c == "" ||
      match parse c.trim with
      | none => true
      | some d =>
        match d.type? with
        | none => true
        | some t =>
          !(OPPORTUNITY_TYPES.contains t) || d.confidence?.isNone || d.reasoning?.isNone

/-! ## Batch scheduler and endpoint (src/main.py lines 255-291)

The Python dict `results` is modelled as an insertion-ordered association
list with dict update semantics: assigning to an existing key replaces
its value in place, assigning a fresh key appends. -/

def dictInsert (m : List (String × OpportunityAnalysis)) (key : String)
    (val : OpportunityAnalysis) : List (String × OpportunityAnalysis) :=
  if m.any (fun p => p.1 == key) then
    m.map (fun p => if p.1 == key then (key, val) else p)
  else m ++ [(key, val)]

def batch_size : Nat := 5

def runBatches (parse : String → Option AnalysisData)
    (oracle : OpportunityForAnalysis → ExtOutcome)
    (l : List OpportunityForAnalysis)
    (results : List (String × OpportunityAnalysis)) :
    List (String × OpportunityAnalysis) :=
  if h : l = [] then results
  else
    runBatches parse oracle (l.drop batch_size)
      (((l.take batch_size).map
          (fun opp => analyze_single_opportunity parse (oracle opp) opp)).foldl
        (fun m r => dictInsert m r.1 r.2) results)
termination_by l.length
decreasing_by
  simp only [List.length_drop]
  have hl : 0 < l.length := List.length_pos.mpr h
  simp only [batch_size]
  omega

def analyze_opportunities (parse : String → Option AnalysisData)
    (oracle : OpportunityForAnalysis → ExtOutcome)
    (request : AnalysisRequest) (timestamp : String) :
    Except HTTPError AnalysisResponse :=
  if request.opportunities = [] then
    Except.error { status_code := 400, detail := "No opportunities provided for analysis" }
  else
    Except.ok
      { results := runBatches parse oracle request.opportunities []
        processed_count := (runBatches parse oracle request.opportunities []).length
        timestamp := timestamp }

/-! ## Schedule trace

The chunked loop of `analyze_opportunities` as an explicit event trace:
each loop iteration processes the slice `opportunities[i : i + 5]` and,
when `i + 5 < len(opportunities)`, sleeps one pacing interval before the
next iteration. -/

inductive SchedEvent (α : Type) where
  | processChunk (chunk : List α) : SchedEvent α
  | sleep : SchedEvent α
deriving DecidableEq, Repr

def scheduleTrace {α : Type} (l : List α) : List (SchedEvent α) :=
  if h : l.length = 0 then []
  else if batch_size < l.length then
    SchedEvent.processChunk (l.take batch_size) :: SchedEvent.sleep ::
      scheduleTrace (l.drop batch_size)
  else [SchedEvent.processChunk (l.take batch_size)]
termination_by l.length
decreasing_by
  simp only [List.length_drop]
  simp only [batch_size]
  omega

def chunkOfEvent {α : Type} : SchedEvent α → Option (List α)
  | SchedEvent.processChunk c => some c
  | SchedEvent.sleep => none

def isSleep {α : Type} : SchedEvent α → Bool
  | SchedEvent.sleep => true
  | _ => false

def batchChunks {α : Type} (l : List α) : List (List α) :=
  (scheduleTrace l).filterMap chunkOfEvent

def sleepCount {α : Type} (l : List α) : Nat :=
  ((scheduleTrace l).filter isSleep).length

/-- The opportunities for which an external-service request is issued:
none at all when the request is rejected as empty, otherwise exactly the
items of the processed chunks. -/
def externalCallLog (request : AnalysisRequest) : List OpportunityForAnalysis :=
  if request.opportunities = [] then []
  else (batchChunks request.opportunities).flatten

/-- Sizes of the successive chunks of a list of given length, for stating
the chunk-size structure of the scheduler. -/
def chunkLens : Nat → List Nat
  | 0 => []
  | n + 1 => if batch_size < n + 1 then batch_size :: chunkLens (n + 1 - batch_size) else [n + 1]
termination_by n => n
decreasing_by
  simp only [batch_size]
  omega

/-! ## Concrete instantiations used by witnesses and counterexamples -/

/-- A parse oracle for content that is not valid JSON: `json.loads` fails
on every string. -/
def parseNone : String → Option AnalysisData := fun _ => none

/-- An external world in which every call raises (e.g. timeout). -/
def oracleExn : OpportunityForAnalysis → ExtOutcome := fun _ => ExtOutcome.exn

/-! ## Helper lemmas about the fallback classifier -/

/-- The thirteen possible outputs of the fallback classifier, in rule
order, ending with the default. -/
def fallbackOutputs : List OpportunityAnalysis := [
  { type := "Security Assessment", confidence := 70, reasoning := "Contains assessment/audit keywords" },
  { type := "Cloud Security", confidence := 75, reasoning := "Contains cloud platform keywords" },
  { type := "Endpoint Security", confidence := 75, reasoning := "Contains endpoint security keywords" },
  { type := "SIEM/SOC", confidence := 80, reasoning := "Contains SIEM/SOC keywords" },
  { type := "Identity Management", confidence := 75, reasoning := "Contains identity management keywords" },
  { type := "Network Security", confidence := 75, reasoning := "Contains network security keywords" },
  { type := "Data Protection", confidence := 75, reasoning := "Contains data protection keywords" },
  { type := "Vulnerability Management", confidence := 75, reasoning := "Contains vulnerability management keywords" },
  { type := "Compliance & Audit", confidence := 75, reasoning := "Contains compliance keywords" },
  { type := "Incident Response", confidence := 75, reasoning := "Contains incident response keywords" },
  { type := "Security Training", confidence := 75, reasoning := "Contains security training keywords" },
  { type := "Mainframe Security", confidence := 80, reasoning := "Contains mainframe keywords" },
  { type := "Security Assessment", confidence := 40, reasoning := "Default fallback categorization" }
]

lemma fallback_output_mem (i : OpportunityForAnalysis) :
    fallback_categorization i ∈ fallbackOutputs := by
  rw [fallback_categorization]
  by_cases h1 : (strContains (search_text i) "assessment" || strContains (search_text i) "audit"
      || strContains (search_text i) "evaluation") = true
  · rw [if_pos h1]; decide
  rw [if_neg h1]
  by_cases h2 : (strContains (search_text i) "cloud" || strContains (search_text i) "aws"
      || strContains (search_text i) "azure" || strContains (search_text i) "gcp") = true
  · rw [if_pos h2]; decide
  rw [if_neg h2]
  by_cases h3 : (strContains (search_text i) "endpoint" || strContains (search_text i) "antivirus"
      || strContains (search_text i) "malware") = true
  · rw [if_pos h3]; decide
  rw [if_neg h3]
  by_cases h4 : (strContains (search_text i) "siem" || strContains (search_text i) "soc"
      || strContains (search_text i) "monitoring") = true
  · rw [if_pos h4]; decide
  rw [if_neg h4]
  by_cases h5 : (strContains (search_text i) "identity" || strContains (search_text i) "access"
      || strContains (search_text i) "mfa" || strContains (search_text i) "authentication") = true
  · rw [if_pos h5]; decide
  rw [if_neg h5]
  by_cases h6 : (strContains (search_text i) "firewall" || strContains (search_text i) "network"
      || strContains (search_text i) "perimeter") = true
  · rw [if_pos h6]; decide
  rw [if_neg h6]
  by_cases h7 : (strContains (search_text i) "data" || strContains (search_text i) "encryption"
      || strContains (search_text i) "backup" || strContains (search_text i) "protection") = true
  · rw [if_pos h7]; decide
  rw [if_neg h7]
  by_cases h8 : (strContains (search_text i) "vulnerability" || strContains (search_text i) "scanning"
      || strContains (search_text i) "penetration") = true
  · rw [if_pos h8]; decide
  rw [if_neg h8]
  by_cases h9 : (strContains (search_text i) "compliance" || strContains (search_text i) "regulatory"
      || strContains (search_text i) "gdpr" || strContains (search_text i) "hipaa") = true
  · rw [if_pos h9]; decide
  rw [if_neg h9]
  by_cases h10 : (strContains (search_text i) "incident" || strContains (search_text i) "response"
      || strContains (search_text i) "forensics") = true
  · rw [if_pos h10]; decide
  rw [if_neg h10]
  by_cases h11 : (strContains (search_text i) "training" || strContains (search_text i) "awareness"
      || strContains (search_text i) "phishing") = true
  · rw [if_pos h11]; decide
  rw [if_neg h11]
  by_cases h12 : (strContains (search_text i) "mainframe" || strContains (search_text i) "legacy"
      || strContains (search_text i) "z/os") = true
  · rw [if_pos h12]; decide
  rw [if_neg h12]
  decide

/-! ## Claims -/

/-- A fixed opportunity used in concrete instantiations; its search text
contains both an assessment keyword and a cloud keyword. -/
def wOppAuditCloud : OpportunityForAnalysis :=
  { id := "w3", opportunityName := "Cloud audit", description := "", onHoldReason := none }

/-- A parse result in which the external service chose a valid taxonomy
type but an out-of-range confidence of 150; models `json.loads` applied
to `cexContent`. -/
def parseCloud150 : String → Option AnalysisData :=
  fun _ => some { type? := some "Cloud Security", confidence? := some 150,
                  reasoning? := some "Cloud keywords dominate" }

/-- The raw generated text of the external response whose decoded form is
`parseCloud150`: valid JSON, valid type, confidence 150. -/
def cexContent : String :=
  "\x7b\"type\": \"Cloud Security\", \"confidence\": 150, \"reasoning\": \"Cloud keywords dominate\"\x7d"

/-- Claim C1 counterexample: an external-path result whose confidence is
not in [0,100]. The external service answers with status 200, a valid
taxonomy type and confidence 150; the source validates only the type and
passes the confidence through unclamped, so the returned result has
confidence 150. -/
theorem confidence_not_clamped_counterexample :
    ¬ (0 ≤ (analyze_single_opportunity parseCloud150
          (ExtOutcome.resp 200 (some cexContent)) wOppAuditCloud).2.confidence ∧
       (analyze_single_opportunity parseCloud150
          (ExtOutcome.resp 200 (some cexContent)) wOppAuditCloud).2.confidence ≤ 100) := by
  decide

/-- Claim C1 (amended): every result produced by `fallback_categorization`
has confidence in [0,100]; results from the external-service success path
carry the external confidence through unclamped and may lie outside the
range. -/
theorem fallback_confidence_in_range (i : OpportunityForAnalysis) :
    0 ≤ (fallback_categorization i).confidence ∧
    (fallback_categorization i).confidence ≤ 100 := by
  have h := fallback_output_mem i
  simp only [fallbackOutputs, List.mem_cons, List.not_mem_nil, or_false] at h
  rcases h with h|h|h|h|h|h|h|h|h|h|h|h|h <;> rw [h] <;> exact ⟨by decide, by decide⟩

/-- Claim C2: `analyze_single_opportunity` is a total function (the
embedding returns a plain pair, so no exception can pass its boundary),
and whenever the external call fails or its output is invalid in any of
the listed ways — the call raised, a non-200 status, an undecodable body,
empty content, unparseable content, a missing required field, or a type
outside the taxonomy — the returned pair is exactly
`(opportunity.id, fallback_categorization opportunity)`. -/
theorem analyze_single_never_raises_falls_back
    (parse : String → Option AnalysisData) (outcome : ExtOutcome)
    (opportunity : OpportunityForAnalysis)
    (h : analysisFailure parse outcome = true) :
    analyze_single_opportunity parse outcome opportunity =
      (opportunity.id, fallback_categorization opportunity) := by
  cases outcome with
  | exn => rfl
  | resp status content =>
    by_cases hs : (status != 200) = true
    · simp only [analyze_single_opportunity, hs, if_true]
    · have hs0 : (status != 200) = false := by
        revert hs; cases status != 200 <;> simp
      simp only [analysisFailure, hs0, Bool.false_or] at h
      simp only [analyze_single_opportunity, hs0, Bool.false_eq_true, if_false]
      cases content with
      | none => rfl
      | some c =>
        by_cases hc : (c == "") = true
        · simp only [hc, if_true]
        · have hc0 : (c == "") = false := by
            revert hc; cases c == "" <;> simp
          simp only [hc0, Bool.false_or] at h
          simp only [hc0, Bool.false_eq_true, if_false]
          cases hp : parse c.trim with
          | none => rfl
          | some d =>
            simp only [hp] at h
            cases ht : d.type? with
            | none => simp only [ht]
            | some t =>
              simp only [ht] at h
              by_cases hcont : OPPORTUNITY_TYPES.contains t = true
              · simp only [hcont, Bool.not_true, Bool.false_or, Bool.or_eq_true] at h
                have hmk : mkOpportunityAnalysis d = none := by
                  unfold mkOpportunityAnalysis
                  rw [ht]
                  rcases h with h | h
                  · rw [Option.isNone_iff_eq_none] at h
                    rw [h]
                  · rw [Option.isNone_iff_eq_none] at h
                    rw [h]
                    cases d.confidence? <;> rfl
                simp only [ht, hcont, if_true, hmk]
              · have hcont0 : OPPORTUNITY_TYPES.contains t = false := by
                  revert hcont; cases OPPORTUNITY_TYPES.contains t <;> simp
                simp only [ht, hcont0, Bool.false_eq_true, if_false]

/-- Witness for claim C2: a concrete failing call (status 500) on a
concrete opportunity, falling back. -/
theorem analyze_single_never_raises_falls_back_witness :
    analysisFailure parseNone (ExtOutcome.resp 500 (some "Server error")) = true ∧
    analyze_single_opportunity parseNone (ExtOutcome.resp 500 (some "Server error")) wOppAuditCloud =
      (wOppAuditCloud.id, fallback_categorization wOppAuditCloud) :=
  ⟨rfl, analyze_single_never_raises_falls_back parseNone
    (ExtOutcome.resp 500 (some "Server error")) wOppAuditCloud rfl⟩

/-- Claim C3: the fallback rules are tested in fixed priority order and
the first match wins: whenever rule 1 (assessment/audit/evaluation) and
rule 2 (cloud/aws/azure/gcp) both match, the result is rule 1's
"Security Assessment" with confidence 70, never "Cloud Security". -/
theorem fallback_rule_priority (i : OpportunityForAnalysis)
    (h1 : (strContains (search_text i) "assessment" || strContains (search_text i) "audit"
        || strContains (search_text i) "evaluation") = true)
    (h2 : (strContains (search_text i) "cloud" || strContains (search_text i) "aws"
        || strContains (search_text i) "azure" || strContains (search_text i) "gcp") = true) :
    fallback_categorization i =
      { type := "Security Assessment", confidence := 70,
        reasoning := "Contains assessment/audit keywords" } ∧
    (fallback_categorization i).type ≠ "Cloud Security" := by
  unfold fallback_categorization
  rw [if_pos h1]
  exact ⟨rfl, by decide⟩

/-- Witness for claim C3: the opportunity "Cloud audit" matches both
rule 1 and rule 2, and resolves to "Security Assessment", 70. -/
theorem fallback_rule_priority_witness :
    ((strContains (search_text wOppAuditCloud) "assessment"
        || strContains (search_text wOppAuditCloud) "audit"
        || strContains (search_text wOppAuditCloud) "evaluation") = true) ∧
    ((strContains (search_text wOppAuditCloud) "cloud"
        || strContains (search_text wOppAuditCloud) "aws"
        || strContains (search_text wOppAuditCloud) "azure"
        || strContains (search_text wOppAuditCloud) "gcp") = true) ∧
    fallback_categorization wOppAuditCloud =
      { type := "Security Assessment", confidence := 70,
        reasoning := "Contains assessment/audit keywords" } :=
  ⟨by decide, by decide, (fallback_rule_priority wOppAuditCloud (by decide) (by decide)).1⟩

/-- Claim C4: `fallback_categorization` is a total pure function of its
input (in the embedding this is definitional; determinism is stated as
the function yielding equal results on equal inputs), and its result
always has a taxonomy type and a confidence among 40, 70, 75, 80. -/
theorem fallback_pure_taxonomy_confidence (i : OpportunityForAnalysis) :
    fallback_categorization i = fallback_categorization i ∧
    (fallback_categorization i).type ∈ OPPORTUNITY_TYPES ∧
    (fallback_categorization i).confidence ∈ ([40, 70, 75, 80] : List Int) := by
  refine ⟨rfl, ?_⟩
  have h := fallback_output_mem i
  simp only [fallbackOutputs, List.mem_cons, List.not_mem_nil, or_false] at h
  rcases h with h|h|h|h|h|h|h|h|h|h|h|h|h <;> rw [h] <;> exact ⟨by decide, by decide⟩

/-- Claim C9 (implicit): the search text is the space-joined,
lower-cased concatenation of name, description and on-hold reason
(empty string when absent), and keyword tests are plain substring
containment rather than whole-word matching: "Our Associates" matches
rule 4 through the "soc" inside "associates", and "database" matches
rule 7 through the "data" inside "database". -/
theorem fallback_substring_semantics :
    (∀ i : OpportunityForAnalysis,
      search_text i =
        toLowerStr (i.opportunityName ++ " " ++ i.description ++ " " ++ i.onHoldReason.getD "")) ∧
    fallback_categorization
        { id := "s1", opportunityName := "Our Associates", description := "", onHoldReason := none } =
      { type := "SIEM/SOC", confidence := 80, reasoning := "Contains SIEM/SOC keywords" } ∧
    fallback_categorization
        { id := "s2", opportunityName := "database", description := "", onHoldReason := none } =
      { type := "Data Protection", confidence := 75, reasoning := "Contains data protection keywords" } :=
  ⟨fun _ => rfl, by decide, by decide⟩

/-! ## Helper lemmas about the schedule trace -/

lemma scheduleTrace_nil {α : Type} : scheduleTrace ([] : List α) = [] := by
  rw [scheduleTrace]
  simp

lemma scheduleTrace_of_gt {α : Type} (l : List α) (h : batch_size < l.length) :
    scheduleTrace l = SchedEvent.processChunk (l.take batch_size) :: SchedEvent.sleep ::
      scheduleTrace (l.drop batch_size) := by
  rw [scheduleTrace]
  rw [dif_neg (by omega), if_pos h]

lemma scheduleTrace_of_le {α : Type} (l : List α) (h0 : l ≠ []) (h : ¬ batch_size < l.length) :
    scheduleTrace l = [SchedEvent.processChunk (l.take batch_size)] := by
  rw [scheduleTrace]
  rw [dif_neg (fun hz => h0 (List.length_eq_zero.mp hz)), if_neg h]

lemma scheduleTrace_ne_nil {α : Type} (l : List α) (h0 : l ≠ []) :
    scheduleTrace l ≠ [] := by
  by_cases h : batch_size < l.length
  · rw [scheduleTrace_of_gt l h]; simp
  · rw [scheduleTrace_of_le l h0 h]; simp

lemma batchChunks_nil {α : Type} : batchChunks ([] : List α) = [] := by
  unfold batchChunks
  rw [scheduleTrace_nil]
  rfl

lemma batchChunks_of_gt {α : Type} (l : List α) (h : batch_size < l.length) :
    batchChunks l = l.take batch_size :: batchChunks (l.drop batch_size) := by
  unfold batchChunks
  rw [scheduleTrace_of_gt l h]
  rfl

lemma batchChunks_of_le {α : Type} (l : List α) (h0 : l ≠ []) (h : ¬ batch_size < l.length) :
    batchChunks l = [l] := by
  unfold batchChunks
  rw [scheduleTrace_of_le l h0 h]
  simp only [List.filterMap]
  rw [List.take_of_length_le (by omega)]
  rfl

lemma batchChunks_ne_nil {α : Type} (l : List α) (h0 : l ≠ []) :
    batchChunks l ≠ [] := by
  by_cases h : batch_size < l.length
  · rw [batchChunks_of_gt l h]; simp
  · rw [batchChunks_of_le l h0 h]; simp

lemma sleepCount_nil {α : Type} : sleepCount ([] : List α) = 0 := by
  unfold sleepCount
  rw [scheduleTrace_nil]
  rfl

lemma sleepCount_of_gt {α : Type} (l : List α) (h : batch_size < l.length) :
    sleepCount l = sleepCount (l.drop batch_size) + 1 := by
  unfold sleepCount
  rw [scheduleTrace_of_gt l h]
  simp [isSleep]

lemma sleepCount_of_le {α : Type} (l : List α) (h0 : l ≠ []) (h : ¬ batch_size < l.length) :
    sleepCount l = 0 := by
  unfold sleepCount
  rw [scheduleTrace_of_le l h0 h]
  rfl

lemma batchChunks_flatten {α : Type} (l : List α) : (batchChunks l).flatten = l := by
  induction l using scheduleTrace.induct with
  | case1 l hz =>
    rw [List.length_eq_zero.mp hz, batchChunks_nil]
    rfl
  | case2 l hz h ih =>
    rw [batchChunks_of_gt l h]
    simp only [List.flatten_cons, ih, List.take_append_drop]
  | case3 l hz h =>
    rw [batchChunks_of_le l (fun he => hz (by rw [he]; rfl)) h]
    simp

lemma batchChunks_sizes {α : Type} (l : List α) :
    ∀ c ∈ batchChunks l, c ≠ [] ∧ c.length ≤ batch_size := by
  induction l using scheduleTrace.induct with
  | case1 l hz =>
    rw [List.length_eq_zero.mp hz, batchChunks_nil]
    intro c hc
    simp at hc
  | case2 l hz h ih =>
    rw [batchChunks_of_gt l h]
    intro c hc
    rcases List.mem_cons.mp hc with rfl | hc
    · constructor
      · intro he
        have hlen := congrArg List.length he
        simp only [List.length_take, List.length_nil, batch_size] at hlen h
        omega
      · simp only [List.length_take]; omega
    · exact ih c hc
  | case3 l hz h =>
    have hne : l ≠ [] := fun he => hz (by rw [he]; rfl)
    rw [batchChunks_of_le l hne h]
    intro c hc
    rcases List.mem_cons.mp hc with rfl | hc
    · exact ⟨hne, by omega⟩
    · simp at hc

lemma batchChunks_dropLast_full {α : Type} (l : List α) :
    ∀ c ∈ (batchChunks l).dropLast, c.length = batch_size := by
  induction l using scheduleTrace.induct with
  | case1 l hz =>
    rw [List.length_eq_zero.mp hz, batchChunks_nil]
    intro c hc
    simp at hc
  | case2 l hz h ih =>
    rw [batchChunks_of_gt l h]
    have hd : l.drop batch_size ≠ [] := by
      intro he
      have := congrArg List.length he
      simp only [List.length_drop, List.length_nil] at this
      omega
    rw [List.dropLast_cons_of_ne_nil (batchChunks_ne_nil _ hd)]
    intro c hc
    rcases List.mem_cons.mp hc with rfl | hc
    · rw [List.length_take]; omega
    · exact ih c hc
  | case3 l hz h =>
    have hne : l ≠ [] := fun he => hz (by rw [he]; rfl)
    rw [batchChunks_of_le l hne h]
    intro c hc
    simp at hc

lemma scheduleTrace_intersperse {α : Type} (l : List α) :
    scheduleTrace l =
      List.intersperse SchedEvent.sleep ((batchChunks l).map SchedEvent.processChunk) := by
  induction l using scheduleTrace.induct with
  | case1 l hz =>
    rw [List.length_eq_zero.mp hz, batchChunks_nil, scheduleTrace_nil]
    rfl
  | case2 l hz h ih =>
    rw [scheduleTrace_of_gt l h, batchChunks_of_gt l h]
    have hd : l.drop batch_size ≠ [] := by
      intro he
      have := congrArg List.length he
      simp only [List.length_drop, List.length_nil] at this
      omega
    obtain ⟨c, cs, hcs⟩ : ∃ c cs, batchChunks (l.drop batch_size) = c :: cs := by
      cases hbc : batchChunks (l.drop batch_size) with
      | nil => exact absurd hbc (batchChunks_ne_nil _ hd)
      | cons c cs => exact ⟨c, cs, rfl⟩
    rw [hcs] at ih
    rw [hcs]
    simp only [List.map_cons, List.intersperse_cons_cons] at ih ⊢
    rw [ih]
  | case3 l hz h =>
    have hne : l ≠ [] := fun he => hz (by rw [he]; rfl)
    rw [scheduleTrace_of_le l hne h, batchChunks_of_le l hne h]
    simp only [List.map_cons, List.map_nil, List.intersperse_singleton]
    rw [List.take_of_length_le (by omega)]

lemma sleepCount_succ_eq_chunks_length {α : Type} (l : List α) (h0 : l ≠ []) :
    sleepCount l + 1 = (batchChunks l).length := by
  induction l using scheduleTrace.induct with
  | case1 l hz => exact absurd (List.length_eq_zero.mp hz) h0
  | case2 l hz h ih =>
    have hd : l.drop batch_size ≠ [] := by
      intro he
      have := congrArg List.length he
      simp only [List.length_drop, List.length_nil] at this
      omega
    rw [sleepCount_of_gt l h, batchChunks_of_gt l h, List.length_cons, ← ih hd]
  | case3 l hz h =>
    rw [sleepCount_of_le l h0 h, batchChunks_of_le l h0 h]
    rfl

lemma scheduleTrace_getLast_not_sleep {α : Type} (l : List α) :
    (scheduleTrace l).getLast? ≠ some SchedEvent.sleep := by
  induction l using scheduleTrace.induct with
  | case1 l hz =>
    rw [List.length_eq_zero.mp hz, scheduleTrace_nil]
    simp
  | case2 l hz h ih =>
    have hd : l.drop batch_size ≠ [] := by
      intro he
      have := congrArg List.length he
      simp only [List.length_drop, List.length_nil] at this
      omega
    rw [scheduleTrace_of_gt l h]
    obtain ⟨e, es, hes⟩ : ∃ e es, scheduleTrace (l.drop batch_size) = e :: es := by
      cases hst : scheduleTrace (l.drop batch_size) with
      | nil => exact absurd hst (scheduleTrace_ne_nil _ hd)
      | cons e es => exact ⟨e, es, rfl⟩
    rw [hes] at ih ⊢
    rw [List.getLast?_cons_cons, List.getLast?_cons_cons]
    exact ih
  | case3 l hz h =>
    have hne : l ≠ [] := fun he => hz (by rw [he]; rfl)
    rw [scheduleTrace_of_le l hne h]
    simp

lemma chunkLens_pos (n : Nat) (h : n ≠ 0) :
    chunkLens n = if batch_size < n then batch_size :: chunkLens (n - batch_size) else [n] := by
  cases n with
  | zero => exact absurd rfl h
  | succ m => rw [chunkLens]

lemma batchChunks_map_length {α : Type} (l : List α) :
    (batchChunks l).map List.length = chunkLens l.length := by
  induction l using scheduleTrace.induct with
  | case1 l hz =>
    rw [List.length_eq_zero.mp hz, batchChunks_nil]
    simp [chunkLens]
  | case2 l hz h ih =>
    rw [batchChunks_of_gt l h, chunkLens_pos l.length hz]
    rw [if_pos h]
    simp only [List.map_cons, List.length_take, List.length_drop] at ih ⊢
    rw [ih]
    congr 1
    omega
  | case3 l hz h =>
    have hne : l ≠ [] := fun he => hz (by rw [he]; rfl)
    rw [batchChunks_of_le l hne h, chunkLens_pos l.length hz, if_neg h]
    rfl

lemma chunkLens_twelve : chunkLens 12 = [5, 5, 2] := by
  rw [chunkLens_pos 12 (by norm_num)]
  norm_num [batch_size]
  rw [chunkLens_pos 7 (by norm_num)]
  norm_num [batch_size]
  rw [chunkLens_pos 2 (by norm_num)]
  norm_num [batch_size]

/-- Twelve concrete opportunities, for instantiating the chunking claims. -/
def w12 : List OpportunityForAnalysis :=
  [{ id := "1", opportunityName := "a", description := "", onHoldReason := none },
   { id := "2", opportunityName := "b", description := "", onHoldReason := none },
   { id := "3", opportunityName := "c", description := "", onHoldReason := none },
   { id := "4", opportunityName := "d", description := "", onHoldReason := none },
   { id := "5", opportunityName := "e", description := "", onHoldReason := none },
   { id := "6", opportunityName := "f", description := "", onHoldReason := none },
   { id := "7", opportunityName := "g", description := "", onHoldReason := none },
   { id := "8", opportunityName := "h", description := "", onHoldReason := none },
   { id := "9", opportunityName := "i", description := "", onHoldReason := none },
   { id := "10", opportunityName := "j", description := "", onHoldReason := none },
   { id := "11", opportunityName := "k", description := "", onHoldReason := none },
   { id := "12", opportunityName := "l", description := "", onHoldReason := none }]

/-- Claim C5: the scheduler partitions the input in original order into
chunks of size 5 (all chunks full except possibly the last, 12 items
giving sizes [5,5,2]), with exactly one pacing sleep between consecutive
chunks — the trace is the chunk events interspersed with single sleeps,
there are (number of chunks - 1) sleeps (2 for 12 items), and the trace
never ends with a sleep. -/
theorem batch_scheduler_chunking (l : List OpportunityForAnalysis) :
    (batchChunks l).flatten = l ∧
    (∀ c ∈ batchChunks l, c ≠ [] ∧ c.length ≤ batch_size) ∧
    (∀ c ∈ (batchChunks l).dropLast, c.length = batch_size) ∧
    scheduleTrace l =
      List.intersperse SchedEvent.sleep ((batchChunks l).map SchedEvent.processChunk) ∧
    (l ≠ [] → sleepCount l + 1 = (batchChunks l).length) ∧
    (scheduleTrace l).getLast? ≠ some SchedEvent.sleep ∧
    (l.length = 12 → (batchChunks l).map List.length = [5, 5, 2] ∧ sleepCount l = 2) := by
  refine ⟨batchChunks_flatten l, batchChunks_sizes l, batchChunks_dropLast_full l,
    scheduleTrace_intersperse l, sleepCount_succ_eq_chunks_length l,
    scheduleTrace_getLast_not_sleep l, ?_⟩
  intro h12
  have hlen : (batchChunks l).map List.length = [5, 5, 2] := by
    rw [batchChunks_map_length, h12, chunkLens_twelve]
  refine ⟨hlen, ?_⟩
  have hne : l ≠ [] := by
    intro he
    rw [he] at h12
    simp at h12
  have hcl : (batchChunks l).length = 3 := by
    have := congrArg List.length hlen
    simpa using this
  have := sleepCount_succ_eq_chunks_length l hne
  omega

/-- Witness for claim C5: the 12-item batch `w12` has chunk sizes
[5, 5, 2] and exactly 2 inter-chunk sleeps. -/
theorem batch_scheduler_chunking_witness :
    w12 ≠ [] ∧ w12.length = 12 ∧
    sleepCount w12 + 1 = (batchChunks w12).length ∧
    (batchChunks w12).map List.length = [5, 5, 2] ∧ sleepCount w12 = 2 :=
  ⟨by decide, by rfl,
   (batch_scheduler_chunking w12).2.2.2.2.1 (by decide),
   ((batch_scheduler_chunking w12).2.2.2.2.2.2 (by rfl)).1,
   ((batch_scheduler_chunking w12).2.2.2.2.2.2 (by rfl)).2⟩

/-! ## Helper lemmas about the results dict -/

def dKeys (m : List (String × OpportunityAnalysis)) : List String := m.map Prod.fst

lemma dictInsert_keys_of_mem (m : List (String × OpportunityAnalysis)) (k : String)
    (v : OpportunityAnalysis) (h : m.any (fun p => p.1 == k) = true) :
    dKeys (dictInsert m k v) = dKeys m := by
  unfold dictInsert dKeys
  rw [if_pos h, List.map_map]
  apply List.map_congr_left
  intro p _
  by_cases hp : (p.1 == k) = true
  · simp only [Function.comp_apply, hp, if_true]
    exact (eq_of_beq hp).symm
  · simp only [Function.comp_apply, hp]
    rfl

lemma dictInsert_keys_of_not_mem (m : List (String × OpportunityAnalysis)) (k : String)
    (v : OpportunityAnalysis) (h : m.any (fun p => p.1 == k) = false) :
    dKeys (dictInsert m k v) = dKeys m ++ [k] := by
  unfold dictInsert dKeys
  rw [if_neg (by rw [h]; exact Bool.false_ne_true), List.map_append]
  rfl

lemma any_key_mem (m : List (String × OpportunityAnalysis)) (k : String)
    (h : m.any (fun p => p.1 == k) = true) : k ∈ dKeys m := by
  obtain ⟨p, hp, hbeq⟩ := List.any_eq_true.mp h
  exact (eq_of_beq hbeq) ▸ List.mem_map_of_mem Prod.fst hp

lemma dictInsert_keys_mem (m : List (String × OpportunityAnalysis)) (k : String)
    (v : OpportunityAnalysis) (x : String) :
    x ∈ dKeys (dictInsert m k v) ↔ x ∈ dKeys m ∨ x = k := by
  cases hany : m.any (fun p => p.1 == k) with
  | true =>
    rw [dictInsert_keys_of_mem m k v hany]
    constructor
    · exact Or.inl
    · rintro (hx | rfl)
      · exact hx
      · exact any_key_mem m x hany
  | false =>
    rw [dictInsert_keys_of_not_mem m k v hany]
    simp [List.mem_append]

lemma dictInsert_length_le (m : List (String × OpportunityAnalysis)) (k : String)
    (v : OpportunityAnalysis) : (dictInsert m k v).length ≤ m.length + 1 := by
  unfold dictInsert
  split
  · rw [List.length_map]; omega
  · rw [List.length_append]; simp

lemma dictInsert_keys_nodup (m : List (String × OpportunityAnalysis)) (k : String)
    (v : OpportunityAnalysis) (h : (dKeys m).Nodup) : (dKeys (dictInsert m k v)).Nodup := by
  cases hany : m.any (fun p => p.1 == k) with
  | true => rw [dictInsert_keys_of_mem m k v hany]; exact h
  | false =>
    rw [dictInsert_keys_of_not_mem m k v hany]
    rw [List.nodup_append]
    refine ⟨h, List.nodup_singleton k, ?_⟩
    intro x hx hxk
    rw [List.mem_singleton] at hxk
    subst hxk
    have : ¬ ∃ p ∈ m, (p.1 == x) = true := by
      rw [← List.any_eq_true, hany]
      exact Bool.false_ne_true
    apply this
    obtain ⟨p, hp, hpx⟩ := List.mem_map.mp hx
    exact ⟨p, hp, by rw [hpx]; exact beq_self_eq_true x⟩

lemma foldl_dictInsert_keys_mem (items : List (String × OpportunityAnalysis))
    (acc : List (String × OpportunityAnalysis)) (x : String) :
    x ∈ dKeys (items.foldl (fun m r => dictInsert m r.1 r.2) acc) ↔
      x ∈ dKeys acc ∨ x ∈ items.map Prod.fst := by
  induction items generalizing acc with
  | nil => simp
  | cons it its ih =>
    rw [List.foldl_cons, ih, dictInsert_keys_mem]
    simp only [List.map_cons, List.mem_cons]
    tauto

lemma foldl_dictInsert_length_le (items : List (String × OpportunityAnalysis))
    (acc : List (String × OpportunityAnalysis)) :
    (items.foldl (fun m r => dictInsert m r.1 r.2) acc).length ≤ acc.length + items.length := by
  induction items generalizing acc with
  | nil => simp
  | cons it its ih =>
    rw [List.foldl_cons]
    calc (its.foldl (fun m r => dictInsert m r.1 r.2) (dictInsert acc it.1 it.2)).length
        ≤ (dictInsert acc it.1 it.2).length + its.length := ih _
      _ ≤ acc.length + 1 + its.length := by
          have := dictInsert_length_le acc it.1 it.2; omega
      _ = acc.length + (it :: its).length := by rw [List.length_cons]; omega

lemma foldl_dictInsert_keys_nodup (items : List (String × OpportunityAnalysis))
    (acc : List (String × OpportunityAnalysis)) (h : (dKeys acc).Nodup) :
    (dKeys (items.foldl (fun m r => dictInsert m r.1 r.2) acc)).Nodup := by
  induction items generalizing acc with
  | nil => exact h
  | cons it its ih =>
    rw [List.foldl_cons]
    exact ih _ (dictInsert_keys_nodup acc it.1 it.2 h)

/-! ## Helper lemmas about the batch loop -/

lemma analyze_single_opportunity_fst (parse : String → Option AnalysisData)
    (outcome : ExtOutcome) (opportunity : OpportunityForAnalysis) :
    (analyze_single_opportunity parse outcome opportunity).1 = opportunity.id := by
  cases outcome with
  | exn => rfl
  | resp status content =>
    unfold analyze_single_opportunity
    repeat' split
    all_goals rfl

lemma runBatches_eq_foldl (parse : String → Option AnalysisData)
    (oracle : OpportunityForAnalysis → ExtOutcome)
    (l : List OpportunityForAnalysis) (acc : List (String × OpportunityAnalysis)) :
    runBatches parse oracle l acc =
      (l.map (fun opp => analyze_single_opportunity parse (oracle opp) opp)).foldl
        (fun m r => dictInsert m r.1 r.2) acc := by
  induction l, acc using runBatches.induct parse oracle with
  | case1 acc =>
    rw [runBatches]
    simp
  | case2 l acc hne ih =>
    rw [runBatches, dif_neg hne, ih]
    rw [← List.foldl_append, ← List.map_append, List.take_append_drop]

/-- Claim C6: for a non-empty batch the endpoint returns a response whose
processed count equals the size of the results mapping, whose keys are
all ids of batch items, and whose count is at most the number of inputs. -/
theorem batch_response_invariants (parse : String → Option AnalysisData)
    (oracle : OpportunityForAnalysis → ExtOutcome)
    (opps : List OpportunityForAnalysis) (t : String) (h : opps ≠ []) :
    ∃ resp, analyze_opportunities parse oracle ⟨opps⟩ t = Except.ok resp ∧
      resp.processed_count = resp.results.length ∧
      (∀ key ∈ resp.results.map Prod.fst, key ∈ opps.map (fun o => o.id)) ∧
      resp.processed_count ≤ opps.length := by
  have hok : analyze_opportunities parse oracle ⟨opps⟩ t =
      Except.ok { results := runBatches parse oracle opps [],
                  processed_count := (runBatches parse oracle opps []).length,
                  timestamp := t } := by
    unfold analyze_opportunities
    rw [if_neg h]
  refine ⟨_, hok, rfl, ?_, ?_⟩
  · intro key hk
    rw [runBatches_eq_foldl] at hk
    rcases (foldl_dictInsert_keys_mem _ [] key).mp hk with h0 | hmem
    · simp [dKeys] at h0
    · rw [List.map_map] at hmem
      have heq : opps.map (Prod.fst ∘ fun opp => analyze_single_opportunity parse (oracle opp) opp)
          = opps.map (fun o => o.id) :=
        List.map_congr_left (fun a _ => analyze_single_opportunity_fst parse (oracle a) a)
      rwa [heq] at hmem
  · rw [runBatches_eq_foldl]
    calc ((opps.map (fun opp => analyze_single_opportunity parse (oracle opp) opp)).foldl
          (fun m r => dictInsert m r.1 r.2) []).length
        ≤ ([] : List (String × OpportunityAnalysis)).length
            + (opps.map (fun opp => analyze_single_opportunity parse (oracle opp) opp)).length :=
          foldl_dictInsert_length_le _ []
      _ = opps.length := by simp

/-- A concrete one-item batch, for the C6 witness. -/
def wOppSingle : OpportunityForAnalysis :=
  { id := "w6", opportunityName := "firewall upgrade", description := "", onHoldReason := none }

/-- Witness for claim C6: the invariants hold on a concrete singleton
batch with the external service raising. -/
theorem batch_response_invariants_witness :
    ([wOppSingle] : List OpportunityForAnalysis) ≠ [] ∧
    (∃ resp, analyze_opportunities parseNone oracleExn ⟨[wOppSingle]⟩ "t" = Except.ok resp ∧
      resp.processed_count = resp.results.length ∧
      (∀ key ∈ resp.results.map Prod.fst, key ∈ [wOppSingle].map (fun o => o.id)) ∧
      resp.processed_count ≤ [wOppSingle].length) :=
  ⟨by decide, batch_response_invariants parseNone oracleExn [wOppSingle] "t" (by decide)⟩

/-- Claim C7: an empty batch is rejected with the 400 client error before
any processing: no external call is issued. -/
theorem empty_request_rejected (parse : String → Option AnalysisData)
    (oracle : OpportunityForAnalysis → ExtOutcome) (t : String) :
    analyze_opportunities parse oracle ⟨[]⟩ t =
      Except.error { status_code := 400, detail := "No opportunities provided for analysis" } ∧
    externalCallLog ⟨[]⟩ = [] :=
  ⟨rfl, rfl⟩

/-- The timestamp-independent payload of a response. -/
def responseData (r : AnalysisResponse) : List (String × OpportunityAnalysis) × Nat :=
  (r.results, r.processed_count)

/-- Claim C8: with a fixed (deterministic) external world, running the
endpoint twice on the same batch yields the same results mapping and
count; the two responses can differ only in the timestamp. -/
theorem analysis_idempotent (parse : String → Option AnalysisData)
    (oracle : OpportunityForAnalysis → ExtOutcome)
    (req : AnalysisRequest) (t1 t2 : String) :
    (analyze_opportunities parse oracle req t1).map responseData =
      (analyze_opportunities parse oracle req t2).map responseData := by
  unfold analyze_opportunities
  by_cases h : req.opportunities = []
  · rw [if_pos h, if_pos h]
  · rw [if_neg h, if_neg h]
    rfl

/-- First of two batch items sharing the id "A"; its fallback category is
"Security Assessment". -/
def dupOppA : OpportunityForAnalysis :=
  { id := "A", opportunityName := "security audit", description := "", onHoldReason := none }

/-- Second of two batch items sharing the id "A"; its fallback category is
"Cloud Security", distinguishing it from `dupOppA`. -/
def dupOppB : OpportunityForAnalysis :=
  { id := "A", opportunityName := "cloud migration", description := "", onHoldReason := none }

/-- Claim C10 (implicit): duplicate ids are not rejected — the mapping
keys are distinct so a duplicated id has exactly one entry, the processed
count is strictly below the number of inputs, and on a concrete two-item
batch sharing id "A" the later item's result overwrites the earlier. -/
theorem duplicate_ids_overwrite (parse : String → Option AnalysisData)
    (oracle : OpportunityForAnalysis → ExtOutcome)
    (opps : List OpportunityForAnalysis) (t : String)
    (hdup : ¬ (opps.map (fun o => o.id)).Nodup) :
    (∃ resp, analyze_opportunities parse oracle ⟨opps⟩ t = Except.ok resp ∧
       (resp.results.map Prod.fst).Nodup ∧
       resp.processed_count < opps.length) ∧
    analyze_opportunities parseNone oracleExn ⟨[dupOppA, dupOppB]⟩ "ts" =
      Except.ok { results := [("A", fallback_categorization dupOppB)],
                  processed_count := 1, timestamp := "ts" } := by
  constructor
  · have hne : opps ≠ [] := by
      rintro rfl
      simp at hdup
    have hok : analyze_opportunities parse oracle ⟨opps⟩ t =
        Except.ok { results := runBatches parse oracle opps [],
                    processed_count := (runBatches parse oracle opps []).length,
                    timestamp := t } := by
      unfold analyze_opportunities
      rw [if_neg hne]
    have hnodup : (dKeys (runBatches parse oracle opps [])).Nodup := by
      rw [runBatches_eq_foldl]
      exact foldl_dictInsert_keys_nodup _ [] (by simp [dKeys])
    refine ⟨_, hok, hnodup, ?_⟩
    have hkeysub : ∀ x ∈ dKeys (runBatches parse oracle opps []),
        x ∈ opps.map (fun o => o.id) := by
      intro x hx
      rw [runBatches_eq_foldl] at hx
      rcases (foldl_dictInsert_keys_mem _ [] x).mp hx with h0 | hmem
      · simp [dKeys] at h0
      · rw [List.map_map] at hmem
        have heq : opps.map (Prod.fst ∘ fun opp => analyze_single_opportunity parse (oracle opp) opp)
            = opps.map (fun o => o.id) :=
          List.map_congr_left (fun a _ => analyze_single_opportunity_fst parse (oracle a) a)
        rwa [heq] at hmem
    have h1 : (dKeys (runBatches parse oracle opps [])).toFinset.card
        = (dKeys (runBatches parse oracle opps [])).length :=
      List.toFinset_card_of_nodup hnodup
    have h2 : (dKeys (runBatches parse oracle opps [])).toFinset
        ⊆ (opps.map (fun o => o.id)).toFinset := by
      intro x hx
      rw [List.mem_toFinset] at hx ⊢
      exact hkeysub x hx
    have h3 : (opps.map (fun o => o.id)).toFinset.card
        = (opps.map (fun o => o.id)).dedup.length :=
      List.card_toFinset _
    have h4 : (opps.map (fun o => o.id)).dedup.length < (opps.map (fun o => o.id)).length := by
      have hle := (List.dedup_sublist (opps.map (fun o => o.id))).length_le
      rcases Nat.lt_or_ge (opps.map (fun o => o.id)).dedup.length
          (opps.map (fun o => o.id)).length with hlt | hge
      · exact hlt
      · exfalso
        have heq := (List.dedup_sublist (opps.map (fun o => o.id))).eq_of_length
          (le_antisymm hle hge)
        exact hdup (heq ▸ List.nodup_dedup (opps.map (fun o => o.id)))
    have h5 := Finset.card_le_card h2
    have h6 : (runBatches parse oracle opps []).length
        = (dKeys (runBatches parse oracle opps [])).length :=
      (List.length_map _ Prod.fst).symm
    have h7 : (opps.map (fun o => o.id)).length = opps.length := List.length_map opps _
    have h8 : (dKeys (runBatches parse oracle opps [])).length
        ≤ (opps.map (fun o => o.id)).dedup.length := by
      rw [← h1, ← h3]
      exact h5
    show (runBatches parse oracle opps []).length < opps.length
    omega
  · have hconc : analyze_opportunities parseNone oracleExn ⟨[dupOppA, dupOppB]⟩ "ts" =
        Except.ok { results := runBatches parseNone oracleExn [dupOppA, dupOppB] [],
                    processed_count := (runBatches parseNone oracleExn [dupOppA, dupOppB] []).length,
                    timestamp := "ts" } := by
      unfold analyze_opportunities
      rw [if_neg (by decide)]
    rw [hconc, runBatches_eq_foldl]
    rfl

/-- Witness for claim C10: the two-item batch `[dupOppA, dupOppB]` has a
duplicated id, and the endpoint returns one entry with count 1 < 2. -/
theorem duplicate_ids_overwrite_witness :
    (¬ (([dupOppA, dupOppB] : List OpportunityForAnalysis).map (fun o => o.id)).Nodup) ∧
    (∃ resp, analyze_opportunities parseNone oracleExn ⟨[dupOppA, dupOppB]⟩ "ts" = Except.ok resp ∧
       (resp.results.map Prod.fst).Nodup ∧
       resp.processed_count < ([dupOppA, dupOppB] : List OpportunityForAnalysis).length) :=
  ⟨by decide,
   (duplicate_ids_overwrite parseNone oracleExn [dupOppA, dupOppB] "ts" (by decide)).1⟩
